import Mathlib

/-!
Verification of the raggy retrieval-augmented-generation core.

This file embeds the core of the repository in Lean:
the Python string primitives the chunker relies on, the chunking loop of
`DocumentService._chunk_text`, the dedup/ingest logic of
`DocumentService.ingest_document`, the score conversion of
`RetrievalService.search`, the answer assembly policy of
`RagService.answer`, and the construction-time validation of
`QueryAnswer` (`validate_claims_have_citations`).

Machine floats of the source are modelled as rationals; UUIDs as natural
numbers; the cryptographic hash and the embedding provider as explicit
function parameters (the source only relies on their determinism).
-/

set_option maxRecDepth 16000

namespace Raggy

/-! ## Python string primitives -/

/-- Whitespace characters recognised by the Python functions `str.split`
and `str.strip` (ASCII subset, which is what the repository feeds them). -/
def pyIsSpace (c : Char) : Bool :=
  c = ' ' || c = '\t' || c = '\n' || c = '\r' || c = '\x0b' || c = '\x0c'

/-- Worker for `str.split()` with no separator: splits on whitespace runs,
dropping empty tokens.  `acc` holds the (reversed) token being built. -/
def splitWsAux : List Char → List Char → List (List Char)
  | [], acc => if acc = [] then [] else [acc.reverse]
  | c :: rest, acc =>
    if pyIsSpace c then
      if acc = [] then splitWsAux rest [] else acc.reverse :: splitWsAux rest []
    else splitWsAux rest (c :: acc)

/-- Python `content.split()` (no separator argument) on a character list. -/
def pySplitCore (l : List Char) : List (List Char) :=
  splitWsAux l []

/-- Python `text.split()` on a string. -/
def pySplit (s : String) : List String :=
  (pySplitCore s.data).map String.mk

/-- Python `normalized.split(" ")` — split on every single space,
keeping empty fields. -/
def splitOnSpace : List Char → List (List Char)
  | [] => [[]]
  | c :: rest =>
    if c = ' ' then [] :: splitOnSpace rest
    else
      match splitOnSpace rest with
      | [] => [[c]]
      | t :: ts => (c :: t) :: ts

/-- Python `s.strip()` on a character list. -/
def pyStripCore (l : List Char) : List Char :=
  ((l.dropWhile pyIsSpace).reverse.dropWhile pyIsSpace).reverse

/-! ## `app/schemas/query.py` -/

/-- `UsedFilters` (datetimes modelled as integer timestamps,
the open `extra` map as an association list). -/
structure UsedFilters where
  product : Option String := none
  version : Option String := none
  lang : Option String := none
  source : Option String := none
  date_from : Option Int := none
  date_to : Option Int := none
  extra : List (String × String) := []
deriving DecidableEq, Repr

/-- `Citation` of `app/schemas/query.py` (scores as rationals,
ids as naturals/strings). -/
structure Citation where
  doc_id : Nat
  chunk_id : String
  title : String
  url : Option String
  page : Option Nat := none
  score : ℚ
deriving DecidableEq, Repr

/-- `QueryResult` of `app/schemas/query.py`. -/
structure QueryResult where
  chunk_id : String
  document_id : Nat
  content : String
  title : String
  url : Option String
  score : ℚ
deriving DecidableEq, Repr

/-- The raw record behind `QueryAnswer`, before pydantic validation. -/
structure QueryAnswer where
  answer : String
  citations : List Citation
  used_filters : UsedFilters
  confidence : ℚ
  retrieve_ms : ℚ
  gen_ms : ℚ
deriving DecidableEq, Repr

/-- The `unknown_markers` tuple of `QueryAnswer.validate_claims_have_citations`. -/
def unknownMarkers : List String :=
  ["i don\x27t know", "i do not know", "not enough information"]

/-- `normalized = self.answer.strip().lower()` followed by the
`any(marker in normalized for marker in unknown_markers)` test. -/
def isUnknownAnswer (answer : String) : Bool :=
  let normalized := (pyStripCore answer.data).map Char.toLower
  unknownMarkers.any fun marker => decide (marker.data <:+: normalized)

/-- Constructing a `QueryAnswer`: pydantic field bounds
(`confidence` in [0,1], non-negative timings) followed by the
`validate_claims_have_citations` model validator. -/
def mkQueryAnswer (answer : String) (citations : List Citation)
    (used_filters : UsedFilters) (confidence retrieve_ms gen_ms : ℚ) :
    Except String QueryAnswer :=
  if ¬(0 ≤ confidence ∧ confidence ≤ 1) then .error "confidence out of range"
  else if ¬(0 ≤ retrieve_ms) then .error "retrieve_ms out of range"
  else if ¬(0 ≤ gen_ms) then .error "gen_ms out of range"
  else if isUnknownAnswer answer then
    .ok ⟨answer, citations, used_filters, confidence, retrieve_ms, gen_ms⟩
  else if citations.isEmpty then .error "Claims must include at least one citation."
  else .ok ⟨answer, citations, used_filters, confidence, retrieve_ms, gen_ms⟩

/-- Constructing a `Citation`: pydantic checks `score` is in [0,1]. -/
def mkCitation (doc_id : Nat) (chunk_id : String) (title : String)
    (url : Option String) (score : ℚ) : Except String Citation :=
  if 0 ≤ score ∧ score ≤ 1 then .ok ⟨doc_id, chunk_id, title, url, none, score⟩
  else .error "score out of range"

/-! ## `app/services/retrieval_service.py` -/

/-- One row returned by the vector index query of `RetrievalService.search`:
a chunk joined to its owning document, plus the cosine distance. -/
structure SearchRow where
  chunk_id : String
  doc_id : Nat
  text : String
  title : String
  source_url : Option String
  distance : ℚ
deriving DecidableEq, Repr

/-- Lines 48–64 of `RetrievalService.search`: convert each distance to a
clamped similarity score, then sort by score descending (stable, like
Python `list.sort(..., reverse=True)`). -/
def search (rows : List SearchRow) : List QueryResult :=
  let results := rows.map fun row =>
    let score : ℚ := 1 - row.distance
    ({ chunk_id := row.chunk_id
       document_id := row.doc_id
       content := row.text
       title := row.title
       url := row.source_url
       score := max (min score 1) 0 } : QueryResult)
  results.mergeSort fun a b => decide (b.score ≤ a.score)

/-! ## `app/services/rag_service.py` -/

/-- The fixed sentinel answer of `RagService.answer`. -/
def sentinelAnswer : String := "I don\x27t know based on the provided documents."

/-- The assembly stage of `RagService.answer` (lines 40–92), as a function
of the retrieval results.  The wall-clock readings `retrieve_ms` and
`gen_ms` are passed in as parameters.  Python `selected[0]` is modelled by
`head?`, raising `IndexError` when out of range. -/
def ragAnswer (results : List QueryResult) (top_k : Nat)
    (used_filters : UsedFilters) (retrieve_ms gen_ms : ℚ) :
    Except String QueryAnswer :=
  if results.isEmpty then
    mkQueryAnswer sentinelAnswer [] used_filters 0 retrieve_ms 0
  else
    let context_size := min (max 6 top_k) 10
    let selected := results.take context_size
    do
      let citations ← selected.mapM fun result =>
        mkCitation result.document_id result.chunk_id result.title result.url result.score
      match selected.head? with
      | none => .error "IndexError"
      | some top =>
        let answer_text := top.content
        let confidence := ((selected.map (·.score)).sum) / (selected.length : ℚ)
        mkQueryAnswer answer_text citations used_filters confidence retrieve_ms gen_ms

/-! ## `app/models/document.py` -/

/-- The `SourceType` enum: exactly the members `url` and `md`. -/
inductive SourceType where
  | url
  | md
deriving DecidableEq, Repr

/-- The string value of each `SourceType` member. -/
def SourceType.value : SourceType → String
  | .url => "url"
  | .md => "md"

/-- `SourceType(s)`: the StrEnum constructor call in `ingest_document`;
raises `ValueError` on anything that is not a member value. -/
def SourceType.fromString (s : String) : Except String SourceType :=
  if s = "url" then .ok .url
  else if s = "md" then .ok .md
  else .error "is not a valid SourceType"

/-- `Chunk` of `app/models/chunk.py` (embedding vectors as rational lists,
the metadata map as string pairs, timestamps dropped as they are
server-side defaults untouched by the service logic). -/
structure Chunk where
  id : String
  chunk_index : Nat
  text : String
  token_count : Nat
  metadata_json : List (String × String)
  embedding : List ℚ
  content_hash : String
deriving DecidableEq, Repr

/-- `Document` of `app/models/document.py`, carrying its chunks
(the `chunks` relationship). -/
structure Document where
  id : Nat
  source_type : SourceType
  source_url : Option String
  title : String
  content_hash : String
  metadata_json : List (String × String)
  fetched_at : Int
  chunks : List Chunk
deriving DecidableEq, Repr

/-! ## `app/schemas/document.py` -/

/-- `DocumentIngestRequest`. -/
structure DocumentIngestRequest where
  source_type : String := "md"
  source_url : Option String := none
  title : String
  content : String
  metadata : List (String × String) := []
  fetched_at : Option Int := none
deriving DecidableEq, Repr

/-- The pydantic pattern `^(url|md)$` on `DocumentIngestRequest.source_type`. -/
def sourceTypePattern (s : String) : Bool :=
  s = "url" || s = "md"

/-- The pydantic field validation of `DocumentIngestRequest`. -/
def DocumentIngestRequest.validate (p : DocumentIngestRequest) : Bool :=
  sourceTypePattern p.source_type
    && (match p.source_url with
        | none => true
        | some u => decide (u.length ≤ 2048))
    && decide (1 ≤ p.title.length) && decide (p.title.length ≤ 512)
    && decide (1 ≤ p.content.length)

/-! ## `app/services/document_service.py`: chunking -/

/-- The body of the `for start in range(0, len(tokens), step)` loop of
`DocumentService._chunk_text`, taking the list of window starts produced
by `range`.  Mirrors both `break` statements. -/
def chunkLoop (tokens : List (List Char)) (chunk_size_tokens : Nat) :
    List Nat → List (List (List Char))
  | [] => []
  | start :: rest =>
    let chunk_tokens := (tokens.drop start).take chunk_size_tokens
    if chunk_tokens = [] then []
    else if tokens.length ≤ start + chunk_size_tokens then [chunk_tokens]
    else chunk_tokens :: chunkLoop tokens chunk_size_tokens rest

/-- `overlap_tokens = max(1, int(chunk_size_tokens * overlap_ratio))`.
(`int` truncation and floor agree wherever `max 1` can tell them apart.) -/
def overlapTokensOf (chunk_size_tokens : Nat) (overlap_ratio : ℚ) : Nat :=
  max 1 (Int.toNat ⌊(chunk_size_tokens : ℚ) * overlap_ratio⌋)

/-- `step = max(1, chunk_size_tokens - overlap_tokens)`. -/
def stepOf (chunk_size_tokens : Nat) (overlap_ratio : ℚ) : Nat :=
  max 1 (chunk_size_tokens - overlapTokensOf chunk_size_tokens overlap_ratio)

/-- The sliding-window stage of `_chunk_text`: the loop run over
`range(0, len(tokens), step)`. -/
def chunkWindows (tokens : List (List Char)) (chunk_size_tokens step : Nat) :
    List (List (List Char)) :=
  chunkLoop tokens chunk_size_tokens
    (List.range' 0 ((tokens.length + step - 1) / step) step)

/-- `DocumentService._chunk_text` on a character list. -/
def chunkTextCore (content : List Char) (chunk_size_tokens : Nat)
    (overlap_ratio : ℚ) : List (List Char) :=
  let normalized := List.intercalate [' '] (pySplitCore content)
  if normalized = [] then [content]
  else
    let tokens := splitOnSpace normalized
    if tokens.length ≤ chunk_size_tokens then [normalized]
    else
      (chunkWindows tokens chunk_size_tokens
        (stepOf chunk_size_tokens overlap_ratio)).map (List.intercalate [' '])

/-- `DocumentService._chunk_text` with its default parameters. -/
def chunk_text (content : String) (chunk_size_tokens : Nat := 1000)
    (overlap_ratio : ℚ := 12/100) : List String :=
  (chunkTextCore content.data chunk_size_tokens overlap_ratio).map String.mk

/-- The concatenation of the non-overlapping portions of a window list:
all but the final window contribute their first `step` tokens, the final
window contributes all of its tokens. -/
def nonOverlapJoin {α : Type} (step : Nat) : List (List α) → List α
  | [] => []
  | [w] => w
  | w :: ws => w.take step ++ nonOverlapJoin step ws

/-- `DocumentService._token_count`: `len(text.split())`. -/
def token_count (text : String) : Nat :=
  (pySplit text).length

/-- `DocumentService._deterministic_chunk_id`: hash of
`"{doc_id}:{chunk_index}:{text}"`, truncated to the UUID-sized 32 hex
characters.  The cryptographic hash is a parameter. -/
def deterministic_chunk_id (hash : String → String) (doc_id : Nat)
    (chunk_index : Nat) (text : String) : String :=
  (hash (toString doc_id ++ ":" ++ toString chunk_index ++ ":" ++ text)).take 32

/-! ## `app/services/document_service.py`: ingestion -/

/-- The persistent store visible to `DocumentService`: the `documents`
table (each row carrying its chunk rows). -/
structure Store where
  docs : List Document
deriving DecidableEq, Repr

/-- The WHERE clause of `_find_existing_document`: equality on
`source_type` and `content_hash`, and `IS NULL`/equality on `source_url`. -/
def documentMatches (source_type : SourceType) (source_url : Option String)
    (content_hash : String) (d : Document) : Bool :=
  decide (d.source_type = source_type) && decide (d.source_url = source_url)
    && decide (d.content_hash = content_hash)

/-- `DocumentService._find_existing_document`: `one_or_none` on the
filtered rows (raising `MultipleResultsFound` past one row). -/
def find_existing_document (docs : List Document) (source_type : SourceType)
    (source_url : Option String) (content_hash : String) :
    Except String (Option Document) :=
  match docs.filter (documentMatches source_type source_url content_hash) with
  | [] => .ok none
  | [d] => .ok (some d)
  | _ => .error "MultipleResultsFound"

/-- `DocumentService.ingest_document`.  `hash` stands for SHA-256, `embed`
for `EmbeddingService.embed_batch`, `fresh_id` for `uuid.uuid4()` and
`now` for `datetime.now`.  The returned Bool records whether the call took
the write path (chunked, embedded and inserted) rather than the
idempotent early return. -/
def ingest_document (hash : String → String)
    (embed : List String → List (List ℚ)) (fresh_id : Nat) (now : Int)
    (store : Store) (payload : DocumentIngestRequest) :
    Except String (Document × Store × Bool) :=
  match SourceType.fromString payload.source_type with
  | .error e => .error e
  | .ok source_type =>
    let content_hash := hash payload.content
    match find_existing_document store.docs source_type payload.source_url
        content_hash with
    | .error e => .error e
    | .ok (some existing) => .ok (existing, store, false)
    | .ok none =>
      let chunks := chunk_text payload.content
      let embeddings := embed chunks
      let fetched_at := payload.fetched_at.getD now
      let doc_id := fresh_id
      let document : Document :=
        { id := doc_id
          source_type := source_type
          source_url := payload.source_url
          title := payload.title
          content_hash := content_hash
          metadata_json := payload.metadata
          fetched_at := fetched_at
          chunks := chunks.mapIdx fun index chunk =>
            { id := deterministic_chunk_id hash doc_id index chunk
              chunk_index := index
              text := chunk
              token_count := token_count chunk
              metadata_json :=
                [("source_type", source_type.value), ("chunk_index", toString index)]
              embedding := embeddings.getD index []
              content_hash := hash chunk } }
      .ok (document, ⟨store.docs ++ [document]⟩, true)

/-! ## Claims about scores, answers and source kinds -/

/-- C6: every distance `d` returned by the vector index is converted by
`search` to the similarity score `max(0, min(1, 1 - d))`, so every score
in every candidate list returned by `search` lies in [0, 1] inclusive,
even when the raw distance would place `1 - d` outside that range. -/
theorem search_scores_in_unit_interval (rows : List SearchRow) (r : QueryResult)
    (hr : r ∈ search rows) :
    (∃ row ∈ rows, r.score = max (min (1 - row.distance) 1) 0)
      ∧ 0 ≤ r.score ∧ r.score ≤ 1 := by
  unfold search at hr
  rw [List.mem_mergeSort] at hr
  obtain ⟨row, hrow, rfl⟩ := List.mem_map.1 hr
  refine ⟨⟨row, hrow, rfl⟩, le_max_right _ _, max_le ?_ zero_le_one⟩
  exact le_trans (min_le_right _ _) le_rfl

/-- Witness for C6 at a raw distance of 5/2 (raw score −3/2, clamped to 0). -/
theorem search_scores_in_unit_interval_witness :
    (⟨"c", 1, "t", "T", none, 0⟩ : QueryResult) ∈ search [⟨"c", 1, "t", "T", none, 5/2⟩]
    ∧ ((∃ row ∈ [(⟨"c", 1, "t", "T", none, 5/2⟩ : SearchRow)],
          (⟨"c", 1, "t", "T", none, 0⟩ : QueryResult).score
            = max (min (1 - row.distance) 1) 0)
        ∧ 0 ≤ (⟨"c", 1, "t", "T", none, 0⟩ : QueryResult).score
        ∧ (⟨"c", 1, "t", "T", none, 0⟩ : QueryResult).score ≤ 1) := by
  have hmem : (⟨"c", 1, "t", "T", none, 0⟩ : QueryResult)
      ∈ search [⟨"c", 1, "t", "T", none, 5/2⟩] := by
    have : search [⟨"c", 1, "t", "T", none, 5/2⟩] = [⟨"c", 1, "t", "T", none, 0⟩] := by
      simp [search, List.mergeSort]
      norm_num
    rw [this]
    exact List.mem_singleton.2 rfl
  exact ⟨hmem, search_scores_in_unit_interval _ _ hmem⟩

/-- C7: when retrieval returns no candidates, the assembly policy returns
(rather than raises) the fixed sentinel answer with empty citations and
confidence exactly 0. -/
theorem empty_retrieval_yields_unknown_answer (top_k : Nat) (uf : UsedFilters)
    (retrieve_ms gen_ms : ℚ) (h : 0 ≤ retrieve_ms) :
    ragAnswer [] top_k uf retrieve_ms gen_ms =
      .ok ⟨sentinelAnswer, [], uf, 0, retrieve_ms, 0⟩ := by
  have hu : isUnknownAnswer sentinelAnswer = true := by decide
  simp [ragAnswer, mkQueryAnswer, hu, h]

/-- Witness for C7 with a measured retrieval time of 3 ms. -/
theorem empty_retrieval_yields_unknown_answer_witness :
    (0 : ℚ) ≤ 3 ∧
    ragAnswer [] 5 {} 3 7 = .ok ⟨sentinelAnswer, [], {}, 0, 3, 0⟩ :=
  ⟨by norm_num, empty_retrieval_yields_unknown_answer 5 {} 3 7 (by norm_num)⟩

/-- C9: the citation requirement is waived by case-insensitive substring
matching against the unknown markers, not by equality with the fixed
sentinel: any answer whose stripped, lowercased text contains a marker is
accepted with zero citations. -/
theorem unknown_marker_waives_citation_requirement (answer : String)
    (uf : UsedFilters) (confidence retrieve_ms gen_ms : ℚ)
    (hmark : isUnknownAnswer answer = true)
    (hc : 0 ≤ confidence ∧ confidence ≤ 1)
    (hr : 0 ≤ retrieve_ms) (hg : 0 ≤ gen_ms) :
    mkQueryAnswer answer [] uf confidence retrieve_ms gen_ms =
      .ok ⟨answer, [], uf, confidence, retrieve_ms, gen_ms⟩ := by
  simp [mkQueryAnswer, hmark, hc, hr, hg]

/-- Witness for C9: a substantive sentence that merely contains
"not enough information" is accepted with zero citations, and it is not
the canonical sentinel. -/
theorem unknown_marker_waives_citation_requirement_witness :
    (isUnknownAnswer
        "Section 9 of the handbook covers cases where there is not enough information."
        = true
      ∧ ((0 : ℚ) ≤ 0 ∧ (0 : ℚ) ≤ 1) ∧ (0 : ℚ) ≤ 0)
    ∧ mkQueryAnswer
        "Section 9 of the handbook covers cases where there is not enough information."
        [] {} 0 0 0
      = .ok ⟨"Section 9 of the handbook covers cases where there is not enough information.",
          [], {}, 0, 0, 0⟩
    ∧ "Section 9 of the handbook covers cases where there is not enough information."
        ≠ sentinelAnswer :=
  ⟨⟨by decide, ⟨le_rfl, by norm_num⟩, le_rfl⟩,
   unknown_marker_waives_citation_requirement _ {} 0 0 0 (by decide)
     ⟨le_rfl, by norm_num⟩ le_rfl le_rfl,
   by decide⟩

/-- Counterexample to C1: construction accepts an answer whose text is a
substantive sentence (not the canonical sentinel) with zero citations,
because the text happens to contain the substring "i do not know"; the
claimed disjunction fails at this accepted answer. -/
theorem citation_invariant_substring_counterexample :
    mkQueryAnswer "Section 3 explains what to do if I do not know the version."
        [] {} 0 0 0
      = .ok ⟨"Section 3 explains what to do if I do not know the version.",
          [], {}, 0, 0, 0⟩
    ∧ "Section 3 explains what to do if I do not know the version." ≠ sentinelAnswer
    ∧ ¬(("Section 3 explains what to do if I do not know the version." = sentinelAnswer
          ∧ ([] : List Citation) = [])
        ∨ ([] : List Citation) ≠ []) := by
  refine ⟨by rfl, by decide, ?_⟩
  rintro (⟨h, -⟩ | h)
  · exact absurd h (by decide)
  · exact h rfl

/-- C1 as amended: every accepted `QueryAnswer` either has text whose
stripped, lowercased form contains one of the unknown markers, or carries
at least one citation; an answer whose text contains no marker is rejected
when constructed with zero citations. -/
theorem accepted_answer_unknown_or_cited (answer : String)
    (citations : List Citation) (uf : UsedFilters)
    (confidence retrieve_ms gen_ms : ℚ) :
    (∀ qa, mkQueryAnswer answer citations uf confidence retrieve_ms gen_ms = .ok qa →
      (isUnknownAnswer answer = true ∨ qa.citations ≠ [])
        ∧ qa.answer = answer ∧ qa.citations = citations)
    ∧ (isUnknownAnswer answer = false → citations = [] →
        ∀ qa, mkQueryAnswer answer citations uf confidence retrieve_ms gen_ms ≠ .ok qa) := by
  constructor
  · intro qa h
    unfold mkQueryAnswer at h
    split_ifs at h with h1 h2 h3 h4 h5
    · cases h
      exact ⟨Or.inl h4, rfl, rfl⟩
    · cases h
      exact ⟨Or.inr (by simpa [List.isEmpty_iff] using h5), rfl, rfl⟩
  · intro hm hc qa h
    subst hc
    unfold mkQueryAnswer at h
    split_ifs at h with h1 h2 h3 h4 h5
    · simp [hm] at h4
    · exact h5 rfl

/-- Witness for the amended C1: a marker-free answer with zero citations
is rejected. -/
theorem accepted_answer_unknown_or_cited_witness :
    isUnknownAnswer "The sky is blue." = false ∧
    mkQueryAnswer "The sky is blue." [] {} 0 0 0
      ≠ .ok ⟨"The sky is blue.", [], {}, 0, 0, 0⟩ :=
  ⟨by decide,
   (accepted_answer_unknown_or_cited "The sky is blue." [] {} 0 0 0).2
     (by decide) rfl ⟨"The sky is blue.", [], {}, 0, 0, 0⟩⟩

/-- Counterexample to C8: the accepted markdown source kind is the string
"md", not "markdown" — "md" passes both validation layers while
"markdown" is rejected by both. -/
theorem source_kind_markdown_counterexample :
    sourceTypePattern "md" = true
    ∧ SourceType.fromString "md" = .ok SourceType.md
    ∧ "md" ≠ "markdown" ∧ "md" ≠ "url"
    ∧ sourceTypePattern "markdown" = false
    ∧ SourceType.fromString "markdown" = .error "is not a valid SourceType" := by
  exact ⟨by decide, by rfl, by decide, by decide, by decide, by rfl⟩

/-- C8 as amended: a source kind is always one of exactly the two values
`url` and `md`: the pydantic pattern accepts exactly these, the enum
conversion in `ingest_document` accepts exactly these (anything else makes
ingestion fail), and every `SourceType` member's value is one of them. -/
theorem source_kind_url_or_md (s : String) :
    (sourceTypePattern s = true ↔ (s = "url" ∨ s = "md"))
    ∧ (∀ st, SourceType.fromString s = .ok st →
        s = st.value ∧ (st.value = "url" ∨ st.value = "md"))
    ∧ (∀ p : DocumentIngestRequest, p.validate = true →
        sourceTypePattern p.source_type = true)
    ∧ (¬(s = "url" ∨ s = "md") →
        ∀ hash embed fresh_id now store (payload : DocumentIngestRequest) res,
          payload.source_type = s →
          ingest_document hash embed fresh_id now store payload ≠ .ok res) := by
  refine ⟨?_, ?_, ?_, ?_⟩
  · simp [sourceTypePattern]
  · intro st h
    unfold SourceType.fromString at h
    split_ifs at h with h1 h2
    · cases h
      exact ⟨h1, Or.inl rfl⟩
    · cases h
      exact ⟨h2, Or.inr rfl⟩
  · intro p hp
    simp only [DocumentIngestRequest.validate, Bool.and_eq_true] at hp
    exact hp.1.1.1.1
  · intro hs hash embed fresh_id now store payload res hpt h
    unfold ingest_document at h
    rw [hpt] at h
    unfold SourceType.fromString at h
    split_ifs at h with h1 h2
    · exact hs (Or.inl h1)
    · exact hs (Or.inr h2)

/-- Witness for the amended C8 at the concrete member value "md". -/
theorem source_kind_url_or_md_witness :
    sourceTypePattern "md" = true :=
  (source_kind_url_or_md "md").1.mpr (Or.inr rfl)

/-! ## Properties of the Python split primitives -/

theorem splitWsAux_tokens (l : List Char) :
    ∀ acc, (∀ c ∈ acc, pyIsSpace c = false) →
      ∀ t ∈ splitWsAux l acc, t ≠ [] ∧ ∀ c ∈ t, pyIsSpace c = false := by
  induction l with
  | nil =>
    intro acc hacc t ht
    unfold splitWsAux at ht
    split_ifs at ht with h
    · cases ht
    · rcases List.mem_singleton.1 ht with rfl
      refine ⟨by simpa using h, ?_⟩
      intro c hc
      exact hacc c (List.mem_reverse.1 hc)
  | cons c rest ih =>
    intro acc hacc t ht
    unfold splitWsAux at ht
    split_ifs at ht with h1 h2
    · exact ih [] (by simp) t ht
    · rcases List.mem_cons.1 ht with rfl | ht'
      · refine ⟨by simpa using h2, ?_⟩
        intro d hd
        exact hacc d (List.mem_reverse.1 hd)
      · exact ih [] (by simp) t ht'
    · refine ih (c :: acc) ?_ t ht
      intro d hd
      rcases List.mem_cons.1 hd with rfl | hd'
      · simpa using h1
      · exact hacc d hd'

theorem pySplitCore_tokens (l : List Char) :
    ∀ t ∈ pySplitCore l, t ≠ [] ∧ ∀ c ∈ t, pyIsSpace c = false :=
  splitWsAux_tokens l [] (by simp)

theorem splitWsAux_append (t : List Char) (l : List Char) :
    ∀ acc, (∀ c ∈ t, pyIsSpace c = false) →
      splitWsAux (t ++ l) acc = splitWsAux l (t.reverse ++ acc) := by
  induction t with
  | nil => intro acc _; simp
  | cons c t ih =>
    intro acc ht
    have hc : pyIsSpace c = false := ht c (List.mem_cons_self _ _)
    have hstep : splitWsAux (c :: (t ++ l)) acc = splitWsAux (t ++ l) (c :: acc) := by
      simp only [splitWsAux, hc]
      simp
    rw [List.cons_append, hstep,
      ih (c :: acc) fun d hd => ht d (List.mem_cons_of_mem _ hd)]
    simp [List.append_assoc]

theorem intercalate_space_cons₂ (a b : List Char) (l : List (List Char)) :
    List.intercalate [' '] (a :: b :: l) = a ++ [' '] ++ List.intercalate [' '] (b :: l) := by
  simp [List.intercalate, List.intersperse]

theorem pySplitCore_intercalate (ts : List (List Char))
    (h : ∀ t ∈ ts, t ≠ [] ∧ ∀ c ∈ t, pyIsSpace c = false) :
    pySplitCore (List.intercalate [' '] ts) = ts := by
  induction ts with
  | nil => simp [pySplitCore, splitWsAux, List.intercalate]
  | cons t ts ih =>
    have ht := h t (List.mem_cons_self _ _)
    cases ts with
    | nil =>
      have h1 : List.intercalate [' '] [t] = t ++ [] := by simp [List.intercalate]
      unfold pySplitCore
      rw [h1, splitWsAux_append t [] [] ht.2]
      unfold splitWsAux
      rw [if_neg (by simpa using ht.1)]
      simp
    | cons t2 ts2 =>
      rw [intercalate_space_cons₂]
      unfold pySplitCore
      rw [List.append_assoc, splitWsAux_append t _ [] ht.2]
      show splitWsAux (' ' :: List.intercalate [' '] (t2 :: ts2)) (t.reverse ++ []) = _
      unfold splitWsAux
      rw [if_pos (by decide)]
      rw [if_neg (by simpa using ht.1)]
      have := ih fun u hu => h u (List.mem_cons_of_mem _ hu)
      unfold pySplitCore at this
      rw [this]
      simp

theorem splitOnSpace_ne_nil (l : List Char) : splitOnSpace l ≠ [] := by
  cases l with
  | nil => simp [splitOnSpace]
  | cons c rest =>
    unfold splitOnSpace
    split_ifs with h
    · simp
    · match hm : splitOnSpace rest with
      | [] => simp
      | t :: ts => simp

theorem splitOnSpace_token (t : List Char) (ht : ∀ c ∈ t, c ≠ ' ') :
    ∀ l r rs, splitOnSpace l = r :: rs →
      splitOnSpace (t ++ l) = (t ++ r) :: rs := by
  induction t with
  | nil => intro l r rs hl; simpa using hl
  | cons c t ih =>
    intro l r rs hl
    have hc : c ≠ ' ' := ht c (List.mem_cons_self _ _)
    show splitOnSpace (c :: (t ++ l)) = _
    unfold splitOnSpace
    rw [if_neg hc]
    rw [ih (fun d hd => ht d (List.mem_cons_of_mem _ hd)) l r rs hl]
    rfl

theorem splitOnSpace_intercalate (ts : List (List Char)) (hne : ts ≠ [])
    (h : ∀ t ∈ ts, ∀ c ∈ t, c ≠ ' ') :
    splitOnSpace (List.intercalate [' '] ts) = ts := by
  induction ts with
  | nil => exact absurd rfl hne
  | cons t ts ih =>
    have ht := h t (List.mem_cons_self _ _)
    cases ts with
    | nil =>
      have h1 : List.intercalate [' '] [t] = t ++ [] := by simp [List.intercalate]
      rw [h1, splitOnSpace_token t ht [] [] [] (by simp [splitOnSpace])]
      simp
    | cons t2 ts2 =>
      rw [intercalate_space_cons₂, List.append_assoc, List.singleton_append]
      have hrec := ih (by simp) fun u hu => h u (List.mem_cons_of_mem _ hu)
      have hsp : splitOnSpace (' ' :: List.intercalate [' '] (t2 :: ts2))
          = [] :: (t2 :: ts2) := by
        unfold splitOnSpace
        rw [if_pos rfl, hrec]
      rw [splitOnSpace_token t ht _ [] (t2 :: ts2) hsp]
      simp

/-- Every token produced by `pySplitCore` is free of the space character. -/
theorem pySplitCore_no_space (l : List Char) :
    ∀ t ∈ pySplitCore l, ∀ c ∈ t, c ≠ ' ' := by
  intro t ht c hc
  intro hcs
  have := (pySplitCore_tokens l t ht).2 c hc
  rw [hcs] at this
  simp [pyIsSpace] at this

/-! ## Coverage and termination of the chunking loop -/

theorem nonOverlapJoin_cons {α : Type} (step : Nat) (w : List α)
    (ws : List (List α)) (h : ws ≠ []) :
    nonOverlapJoin step (w :: ws) = w.take step ++ nonOverlapJoin step ws := by
  cases ws with
  | nil => exact absurd rfl h
  | cons b bs => rfl

theorem chunkLoop_ne_nil (tokens : List (List Char)) (size step : Nat)
    (hsize : 1 ≤ size) (n start : Nat) (h1 : start < tokens.length) (hn : 1 ≤ n) :
    chunkLoop tokens size (List.range' start n step) ≠ [] := by
  obtain ⟨m, rfl⟩ : ∃ m, n = m + 1 := ⟨n - 1, by omega⟩
  rw [List.range'_succ]
  unfold chunkLoop
  have hct : (tokens.drop start).take size ≠ [] := by
    rw [Ne, List.take_eq_nil_iff, not_or, List.drop_eq_nil_iff]
    omega
  rw [if_neg hct]
  split_ifs <;> simp

theorem chunkLoop_coverage (tokens : List (List Char)) (size step : Nat)
    (hsize : 1 ≤ size) (hstep : 1 ≤ step) (hss : step ≤ size) :
    ∀ n start, start < tokens.length → tokens.length - start ≤ n * step →
      nonOverlapJoin step (chunkLoop tokens size (List.range' start n step))
        = tokens.drop start := by
  intro n
  induction n with
  | zero =>
    intro start h1 h2
    rw [Nat.zero_mul] at h2
    omega
  | succ n ih =>
    intro start h1 h2
    rw [Nat.succ_mul] at h2
    rw [List.range'_succ]
    unfold chunkLoop
    have hct : (tokens.drop start).take size ≠ [] := by
      rw [Ne, List.take_eq_nil_iff, not_or, List.drop_eq_nil_iff]
      omega
    rw [if_neg hct]
    by_cases hend : tokens.length ≤ start + size
    · rw [if_pos hend]
      show (tokens.drop start).take size = tokens.drop start
      apply List.take_of_length_le
      rw [List.length_drop]
      omega
    · rw [if_neg hend]
      have hlt : start + step < tokens.length := by omega
      have hrest : chunkLoop tokens size (List.range' (start + step) n step) ≠ [] := by
        apply chunkLoop_ne_nil tokens size step hsize n (start + step) hlt
        by_contra hb
        push_neg at hb
        interval_cases n
        rw [Nat.zero_mul] at h2
        omega
      rw [nonOverlapJoin_cons _ _ _ hrest]
      rw [ih (start + step) hlt (by omega)]
      rw [List.take_take, min_eq_left hss]
      rw [show tokens.drop (start + step) = (tokens.drop start).drop step from by
        rw [List.drop_drop]]
      exact List.take_append_drop step (tokens.drop start)

theorem chunkLoop_last_suffix (tokens : List (List Char)) (size step : Nat)
    (hsize : 1 ≤ size) (hss : step ≤ size) :
    ∀ n start, start < tokens.length → tokens.length - start ≤ n * step →
      ∃ w, (chunkLoop tokens size (List.range' start n step)).getLast? = some w
        ∧ w <:+ tokens := by
  intro n
  induction n with
  | zero =>
    intro start h1 h2
    rw [Nat.zero_mul] at h2
    omega
  | succ n ih =>
    intro start h1 h2
    rw [Nat.succ_mul] at h2
    rw [List.range'_succ]
    unfold chunkLoop
    have hct : (tokens.drop start).take size ≠ [] := by
      rw [Ne, List.take_eq_nil_iff, not_or, List.drop_eq_nil_iff]
      omega
    rw [if_neg hct]
    by_cases hend : tokens.length ≤ start + size
    · rw [if_pos hend]
      refine ⟨tokens.drop start, ?_, List.drop_suffix start tokens⟩
      rw [List.take_of_length_le (by rw [List.length_drop]; omega)]
      rfl
    · rw [if_neg hend]
      have hlt : start + step < tokens.length := by omega
      obtain ⟨w, hw, hsuf⟩ := ih (start + step) hlt (by omega)
      refine ⟨w, ?_, hsuf⟩
      obtain ⟨b, L, hb⟩ := List.exists_cons_of_ne_nil
        (chunkLoop_ne_nil tokens size step hsize n (start + step) hlt
          (by by_contra hb; push_neg at hb; interval_cases n;
              rw [Nat.zero_mul] at h2; omega))
      rw [hb]
      rw [List.getLast?_cons_cons]
      rw [← hb]
      exact hw

theorem chunkLoop_mem_mem (tokens : List (List Char)) (size : Nat) :
    ∀ starts w, w ∈ chunkLoop tokens size starts → ∀ t ∈ w, t ∈ tokens := by
  intro starts
  induction starts with
  | nil => simp [chunkLoop]
  | cons s ss ih =>
    intro w hw t ht
    simp only [chunkLoop] at hw
    by_cases h1 : (tokens.drop s).take size = []
    · rw [if_pos h1] at hw
      cases hw
    · rw [if_neg h1] at hw
      by_cases h2 : tokens.length ≤ s + size
      · rw [if_pos h2] at hw
        rcases List.mem_singleton.1 hw with rfl
        exact List.drop_subset s tokens (List.take_subset size _ ht)
      · rw [if_neg h2] at hw
        rcases List.mem_cons.1 hw with rfl | hw'
        · exact List.drop_subset s tokens (List.take_subset size _ ht)
        · exact ih w hw' t ht

theorem chunkLoop_mem_ne_nil (tokens : List (List Char)) (size : Nat) :
    ∀ starts w, w ∈ chunkLoop tokens size starts → w ≠ [] := by
  intro starts
  induction starts with
  | nil => simp [chunkLoop]
  | cons s ss ih =>
    intro w hw
    simp only [chunkLoop] at hw
    by_cases h1 : (tokens.drop s).take size = []
    · rw [if_pos h1] at hw
      cases hw
    · rw [if_neg h1] at hw
      by_cases h2 : tokens.length ≤ s + size
      · rw [if_pos h2] at hw
        rcases List.mem_singleton.1 hw with rfl
        exact h1
      · rw [if_neg h2] at hw
        rcases List.mem_cons.1 hw with rfl | hw'
        · exact h1
        · exact ih w hw'

theorem chunkLoop_length_le (tokens : List (List Char)) (size : Nat) :
    ∀ starts, (chunkLoop tokens size starts).length ≤ starts.length := by
  intro starts
  induction starts with
  | nil => simp [chunkLoop]
  | cons s ss ih =>
    simp only [chunkLoop]
    split_ifs with h1 h2
    · simp
    · simp
    · simp only [List.length_cons]
      omega

theorem le_ceil_mul (len step : Nat) (h : 1 ≤ step) :
    len ≤ step * ((len + step - 1) / step) := by
  have h1 := Nat.div_add_mod (len + step - 1) step
  have h2 : (len + step - 1) % step < step := Nat.mod_lt _ (by omega)
  omega

theorem ceil_le_of_one_le (len step : Nat) (h : 1 ≤ step) :
    (len + step - 1) / step ≤ len := by
  have h1 : len + step - 1 ≤ step - 1 + len * step := by
    have : len ≤ len * step := Nat.le_mul_of_pos_right len (by omega)
    omega
  calc (len + step - 1) / step ≤ (step - 1 + len * step) / step :=
        Nat.div_le_div_right h1
    _ = (step - 1) / step + len := Nat.add_mul_div_right _ _ (by omega)
    _ = len := by rw [Nat.div_eq_of_lt (by omega)]; omega

theorem chain_lt_range' (step : Nat) (h : 1 ≤ step) :
    ∀ n s, List.Chain' (· < ·) (List.range' s n step) := by
  intro n
  induction n with
  | zero => intro s; simp
  | succ n ih =>
    intro s
    rw [List.range'_succ, List.chain'_cons']
    refine ⟨?_, ih (s + step)⟩
    intro y hy
    cases n with
    | zero => simp [List.range'] at hy
    | succ m =>
      rw [List.range'_succ] at hy
      simp at hy
      omega

/-- C3: chunking covers the whole input.  The emitted chunks, re-read as
token lists, have the property that the concatenation of their
non-overlapping portions is exactly the token list of the
whitespace-normalized input (no token dropped), and the final emitted
window is a suffix of the token sequence (it reaches the end). -/
theorem chunking_covers_normalized_input (content : String)
    (chunk_size_tokens : Nat) (overlap_ratio : ℚ) (hsize : 1 ≤ chunk_size_tokens) :
    nonOverlapJoin (stepOf chunk_size_tokens overlap_ratio)
        ((chunkTextCore content.data chunk_size_tokens overlap_ratio).map pySplitCore)
      = pySplitCore content.data
    ∧ ∃ w, ((chunkTextCore content.data chunk_size_tokens overlap_ratio).map
          pySplitCore).getLast? = some w ∧ w <:+ pySplitCore content.data := by
  have hts := pySplitCore_tokens content.data
  simp only [chunkTextCore]
  by_cases hnorm : List.intercalate [' '] (pySplitCore content.data) = []
  · rw [if_pos hnorm]
    exact ⟨rfl, pySplitCore content.data, rfl, List.suffix_rfl⟩
  · rw [if_neg hnorm]
    have htsne : pySplitCore content.data ≠ [] := by
      intro h0
      rw [h0] at hnorm
      exact hnorm (by simp [List.intercalate])
    have htok : splitOnSpace (List.intercalate [' '] (pySplitCore content.data))
        = pySplitCore content.data :=
      splitOnSpace_intercalate _ htsne (pySplitCore_no_space content.data)
    rw [htok]
    by_cases hle : (pySplitCore content.data).length ≤ chunk_size_tokens
    · rw [if_pos hle]
      simp only [List.map_cons, List.map_nil]
      rw [pySplitCore_intercalate _ hts]
      exact ⟨rfl, pySplitCore content.data, rfl, List.suffix_rfl⟩
    · rw [if_neg hle]
      have h1step : 1 ≤ stepOf chunk_size_tokens overlap_ratio := le_max_left 1 _
      have hstep_le : stepOf chunk_size_tokens overlap_ratio ≤ chunk_size_tokens :=
        max_le hsize (Nat.sub_le _ _)
      rw [List.map_map]
      have hmapeq : (chunkWindows (pySplitCore content.data) chunk_size_tokens
            (stepOf chunk_size_tokens overlap_ratio)).map
            (pySplitCore ∘ List.intercalate [' '])
          = chunkWindows (pySplitCore content.data) chunk_size_tokens
            (stepOf chunk_size_tokens overlap_ratio) := by
        have hcongr : ∀ w ∈ chunkWindows (pySplitCore content.data) chunk_size_tokens
            (stepOf chunk_size_tokens overlap_ratio),
            (pySplitCore ∘ List.intercalate [' ']) w = id w := by
          intro w hw
          exact pySplitCore_intercalate w fun u hu =>
            hts u (chunkLoop_mem_mem (pySplitCore content.data) chunk_size_tokens _ w hw u hu)
        rw [List.map_congr_left hcongr, List.map_id]
      rw [hmapeq]
      have hlen : 0 < (pySplitCore content.data).length := by omega
      have hbound : (pySplitCore content.data).length - 0 ≤
          (((pySplitCore content.data).length + stepOf chunk_size_tokens overlap_ratio - 1)
              / stepOf chunk_size_tokens overlap_ratio)
            * stepOf chunk_size_tokens overlap_ratio := by
        rw [Nat.mul_comm]
        have := le_ceil_mul (pySplitCore content.data).length
          (stepOf chunk_size_tokens overlap_ratio) h1step
        omega
      constructor
      · have hcov := chunkLoop_coverage (pySplitCore content.data) chunk_size_tokens
          (stepOf chunk_size_tokens overlap_ratio) hsize h1step hstep_le _ 0 hlen hbound
        rw [List.drop_zero] at hcov
        exact hcov
      · obtain ⟨w, hw, hsuf⟩ := chunkLoop_last_suffix (pySplitCore content.data)
          chunk_size_tokens (stepOf chunk_size_tokens overlap_ratio) hsize hstep_le
          _ 0 hlen hbound
        exact ⟨w, hw, hsuf⟩

/-- Witness for C3 at the default parameters and at small parameters that
force several overlapping windows. -/
theorem chunking_covers_normalized_input_witness :
    (1 ≤ 1000
      ∧ nonOverlapJoin (stepOf 1000 (12/100))
          ((chunkTextCore "alpha   beta\n gamma".data 1000 (12/100)).map pySplitCore)
        = pySplitCore "alpha   beta\n gamma".data)
    ∧ (1 ≤ 2
      ∧ nonOverlapJoin (stepOf 2 (1/2))
          ((chunkTextCore "a b c d".data 2 (1/2)).map pySplitCore)
        = pySplitCore "a b c d".data) :=
  ⟨⟨by decide,
    (chunking_covers_normalized_input "alpha   beta\n gamma" 1000 (12/100) (by decide)).1⟩,
   ⟨by decide,
    (chunking_covers_normalized_input "a b c d" 2 (1/2) (by decide)).1⟩⟩

/-- C10: chunking terminates on every input and every parameter choice:
the sliding-window step is forced to at least 1, so the window starts
strictly increase along the loop, and `_chunk_text` is total, emitting at
most `max 1 (token count)` chunks. -/
theorem chunking_total_and_bounded (content : String) (chunk_size_tokens : Nat)
    (overlap_ratio : ℚ) :
    1 ≤ stepOf chunk_size_tokens overlap_ratio
    ∧ List.Chain' (· < ·)
        (List.range' 0
          (((pySplit content).length + stepOf chunk_size_tokens overlap_ratio - 1)
            / stepOf chunk_size_tokens overlap_ratio)
          (stepOf chunk_size_tokens overlap_ratio))
    ∧ (chunk_text content chunk_size_tokens overlap_ratio).length
        ≤ max 1 (pySplit content).length := by
  refine ⟨le_max_left 1 _, chain_lt_range' _ (le_max_left 1 _) _ 0, ?_⟩
  unfold chunk_text
  rw [List.length_map]
  simp only [chunkTextCore]
  by_cases hnorm : List.intercalate [' '] (pySplitCore content.data) = []
  · rw [if_pos hnorm]
    exact le_max_left 1 _
  · rw [if_neg hnorm]
    have htsne : pySplitCore content.data ≠ [] := by
      intro h0
      rw [h0] at hnorm
      exact hnorm (by simp [List.intercalate])
    have htok : splitOnSpace (List.intercalate [' '] (pySplitCore content.data))
        = pySplitCore content.data :=
      splitOnSpace_intercalate _ htsne (pySplitCore_no_space content.data)
    rw [htok]
    have hplen : (pySplit content).length = (pySplitCore content.data).length := by
      unfold pySplit
      rw [List.length_map]
    by_cases hle : (pySplitCore content.data).length ≤ chunk_size_tokens
    · rw [if_pos hle]
      exact le_max_left 1 _
    · rw [if_neg hle]
      rw [List.length_map]
      unfold chunkWindows
      refine le_trans (le_trans (chunkLoop_length_le _ _ _) ?_) (le_max_right 1 _)
      rw [List.length_range', hplen]
      exact ceil_le_of_one_le _ _ (le_max_left 1 _)

/-! ## Idempotent ingestion -/

theorem find_after_insert (docs : List Document) (source_type : SourceType)
    (source_url : Option String) (content_hash : String)
    (hnone : find_existing_document docs source_type source_url content_hash = .ok none)
    (d : Document) (hd : documentMatches source_type source_url content_hash d = true) :
    find_existing_document (docs ++ [d]) source_type source_url content_hash
      = .ok (some d) := by
  unfold find_existing_document at hnone ⊢
  rcases hfilter : docs.filter (documentMatches source_type source_url content_hash)
    with _ | ⟨x, xs⟩
  · rw [List.filter_append, hfilter, List.nil_append]
    simp [hd]
  · rw [hfilter] at hnone
    cases xs <;> cases hnone

theorem find_some_filter (docs : List Document) (source_type : SourceType)
    (source_url : Option String) (content_hash : String) (d : Document)
    (hfound : find_existing_document docs source_type source_url content_hash
      = .ok (some d)) :
    docs.filter (documentMatches source_type source_url content_hash) = [d] := by
  unfold find_existing_document at hfound
  rcases hfilter : docs.filter (documentMatches source_type source_url content_hash)
    with _ | ⟨x, xs⟩
  · rw [hfilter] at hfound
    cases hfound
  · rw [hfilter] at hfound
    cases xs with
    | nil =>
      cases hfound
      rfl
    | cons y ys => cases hfound

/-- C2: ingestion is idempotent.  If a first call to `ingest_document`
succeeds (returning document `d1` and store `st1`), then a second call
with the same payload — under any fresh id and clock — returns the very
same document, leaves the store untouched (so the document and its chunks
exist exactly once), and takes the idempotent early-return path (the
`false` flag: no chunking, no embedding, no write). -/
theorem ingest_idempotent (hash : String → String)
    (embed : List String → List (List ℚ)) (id1 id2 : Nat) (now1 now2 : Int)
    (store : Store) (payload : DocumentIngestRequest)
    (d1 : Document) (st1 : Store) (w1 : Bool)
    (h1 : ingest_document hash embed id1 now1 store payload = .ok (d1, st1, w1)) :
    ingest_document hash embed id2 now2 st1 payload = .ok (d1, st1, false) := by
  unfold ingest_document at h1 ⊢
  cases hst : SourceType.fromString payload.source_type with
  | error e =>
    rw [hst] at h1
    cases h1
  | ok source_type =>
    rw [hst] at h1
    dsimp only [] at h1 ⊢
    cases hfind : find_existing_document store.docs source_type payload.source_url
        (hash payload.content) with
    | error e =>
      rw [hfind] at h1
      cases h1
    | ok od =>
      rw [hfind] at h1
      cases od with
      | some existing =>
        dsimp only [] at h1
        cases h1
        rw [hfind]
      | none =>
        dsimp only [] at h1
        cases h1
        rw [find_after_insert store.docs source_type payload.source_url
          (hash payload.content) hfind _ (by simp [documentMatches])]

/-- Witness for C2: a concrete first ingestion into an empty store,
followed by the idempotent second call. -/
theorem ingest_idempotent_witness :
    ingest_document id (fun cs => cs.map fun _ => [0]) 7 5 ⟨[]⟩
        ⟨"url", some "https://x", "T", "alpha beta gamma", [], none⟩ =
      .ok (⟨7, .url, some "https://x", "T", "alpha beta gamma", [], 5,
            [⟨"7:0:alpha beta gamma", 0, "alpha beta gamma", 3,
              [("source_type", "url"), ("chunk_index", "0")], [0],
              "alpha beta gamma"⟩]⟩,
           ⟨[⟨7, .url, some "https://x", "T", "alpha beta gamma", [], 5,
            [⟨"7:0:alpha beta gamma", 0, "alpha beta gamma", 3,
              [("source_type", "url"), ("chunk_index", "0")], [0],
              "alpha beta gamma"⟩]⟩]⟩, true)
    ∧ ingest_document id (fun cs => cs.map fun _ => [0]) 8 6
        ⟨[⟨7, .url, some "https://x", "T", "alpha beta gamma", [], 5,
            [⟨"7:0:alpha beta gamma", 0, "alpha beta gamma", 3,
              [("source_type", "url"), ("chunk_index", "0")], [0],
              "alpha beta gamma"⟩]⟩]⟩
        ⟨"url", some "https://x", "T", "alpha beta gamma", [], none⟩ =
      .ok (⟨7, .url, some "https://x", "T", "alpha beta gamma", [], 5,
            [⟨"7:0:alpha beta gamma", 0, "alpha beta gamma", 3,
              [("source_type", "url"), ("chunk_index", "0")], [0],
              "alpha beta gamma"⟩]⟩,
           ⟨[⟨7, .url, some "https://x", "T", "alpha beta gamma", [], 5,
            [⟨"7:0:alpha beta gamma", 0, "alpha beta gamma", 3,
              [("source_type", "url"), ("chunk_index", "0")], [0],
              "alpha beta gamma"⟩]⟩]⟩, false) := by
  have h1 : ingest_document id (fun cs => cs.map fun _ => [0]) 7 5 ⟨[]⟩
      ⟨"url", some "https://x", "T", "alpha beta gamma", [], none⟩ =
    .ok (⟨7, .url, some "https://x", "T", "alpha beta gamma", [], 5,
          [⟨"7:0:alpha beta gamma", 0, "alpha beta gamma", 3,
            [("source_type", "url"), ("chunk_index", "0")], [0],
            "alpha beta gamma"⟩]⟩,
         ⟨[⟨7, .url, some "https://x", "T", "alpha beta gamma", [], 5,
          [⟨"7:0:alpha beta gamma", 0, "alpha beta gamma", 3,
            [("source_type", "url"), ("chunk_index", "0")], [0],
            "alpha beta gamma"⟩]⟩]⟩, true) := by rfl
  exact ⟨h1, ingest_idempotent _ _ 7 8 5 6 _ _ _ _ _ h1⟩

/-! ## The answer assembly policy on non-empty candidate lists -/

theorem mapM_mkCitation_ok (selected : List QueryResult)
    (h : ∀ r ∈ selected, 0 ≤ r.score ∧ r.score ≤ 1) :
    (selected.mapM fun result =>
        mkCitation result.document_id result.chunk_id result.title result.url result.score)
      = .ok (selected.map fun result =>
          ⟨result.document_id, result.chunk_id, result.title, result.url,
            none, result.score⟩) := by
  induction selected with
  | nil => rfl
  | cons r rs ih =>
    rw [List.mapM_cons]
    have hr := h r (List.mem_cons_self _ _)
    have hone : mkCitation r.document_id r.chunk_id r.title r.url r.score
        = .ok ⟨r.document_id, r.chunk_id, r.title, r.url, none, r.score⟩ := by
      unfold mkCitation
      rw [if_pos hr]
    rw [hone, ih fun x hx => h x (List.mem_cons_of_mem _ hx)]
    rfl

theorem confidence_mean_bounds (selected : List QueryResult) (hne : selected ≠ [])
    (h : ∀ r ∈ selected, 0 ≤ r.score ∧ r.score ≤ 1) :
    0 ≤ (selected.map (·.score)).sum / (selected.length : ℚ)
    ∧ (selected.map (·.score)).sum / (selected.length : ℚ) ≤ 1 := by
  have hlen : (0 : ℚ) < (selected.length : ℚ) := by
    have : 0 < selected.length := List.length_pos.2 hne
    exact_mod_cast this
  have hsumnn : 0 ≤ (selected.map (·.score)).sum := by
    apply List.sum_nonneg
    intro x hx
    obtain ⟨r, hr, rfl⟩ := List.mem_map.1 hx
    exact (h r hr).1
  have hsumle : (selected.map (·.score)).sum ≤ (selected.length : ℚ) := by
    have hb := List.sum_le_card_nsmul (selected.map (·.score)) 1 ?_
    · simpa [List.length_map, nsmul_eq_mul] using hb
    · intro x hx
      obtain ⟨r, hr, rfl⟩ := List.mem_map.1 hx
      exact (h r hr).2
  exact ⟨div_nonneg hsumnn (le_of_lt hlen), (div_le_one hlen).2 hsumle⟩

theorem mkQueryAnswer_ok_of_citations (answer : String) (citations : List Citation)
    (uf : UsedFilters) (confidence retrieve_ms gen_ms : ℚ)
    (hconf : 0 ≤ confidence ∧ confidence ≤ 1) (hr : 0 ≤ retrieve_ms)
    (hg : 0 ≤ gen_ms) (hcit : citations ≠ []) :
    mkQueryAnswer answer citations uf confidence retrieve_ms gen_ms
      = .ok ⟨answer, citations, uf, confidence, retrieve_ms, gen_ms⟩ := by
  unfold mkQueryAnswer
  rw [if_neg (not_not_intro hconf), if_neg (not_not_intro hr), if_neg (not_not_intro hg)]
  by_cases hu : isUnknownAnswer answer
  · rw [if_pos hu]
  · rw [if_neg hu, if_neg (by simpa [List.isEmpty_iff] using hcit)]

/-- Full evaluation of `RagService.answer` on a non-empty candidate list
with in-range scores: the context window is the first
`min (max 6 top_k) 10` candidates, one citation per selected candidate,
the answer text is the top candidate's chunk text, and confidence is the
mean of the selected scores. -/
theorem ragAnswer_ok (r0 : QueryResult) (rest : List QueryResult) (top_k : Nat)
    (uf : UsedFilters) (retrieve_ms gen_ms : ℚ)
    (hscores : ∀ r ∈ r0 :: rest, 0 ≤ r.score ∧ r.score ≤ 1)
    (hr : 0 ≤ retrieve_ms) (hg : 0 ≤ gen_ms) :
    ragAnswer (r0 :: rest) top_k uf retrieve_ms gen_ms =
      .ok ⟨r0.content,
        ((r0 :: rest).take (min (max 6 top_k) 10)).map fun result =>
          ⟨result.document_id, result.chunk_id, result.title, result.url,
            none, result.score⟩,
        uf,
        (((r0 :: rest).take (min (max 6 top_k) 10)).map (·.score)).sum
          / ((((r0 :: rest).take (min (max 6 top_k) 10)).length : ℚ)),
        retrieve_ms, gen_ms⟩ := by
  obtain ⟨m, hm⟩ : ∃ m, min (max 6 top_k) 10 = m + 1 :=
    ⟨min (max 6 top_k) 10 - 1, by omega⟩
  have hsel : (r0 :: rest).take (min (max 6 top_k) 10) = r0 :: rest.take m := by
    rw [hm, List.take_succ_cons]
  have hsub : ∀ r ∈ (r0 :: rest).take (min (max 6 top_k) 10),
      0 ≤ r.score ∧ r.score ≤ 1 :=
    fun r hr' => hscores r (List.take_subset _ _ hr')
  have hcb := confidence_mean_bounds _ (by rw [hsel]; simp) hsub
  simp only [ragAnswer, List.isEmpty_cons, Bool.false_eq_true, if_false]
  rw [mapM_mkCitation_ok _ hsub]
  show Except.bind _ _ = _
  rw [Except.bind]
  rw [hsel]
  simp only [List.head?_cons]
  rw [← hsel]
  exact mkQueryAnswer_ok_of_citations _ _ uf _ retrieve_ms gen_ms hcb hr hg
    (by rw [hsel]; simp)

/-- C4: when retrieval returns a non-empty candidate list, the answer
text is exactly — character for character — the chunk text of the
top-ranked selected candidate (the head of the ranked list): no
paraphrasing and no concatenation. -/
theorem answer_text_is_top_candidate_chunk (r0 : QueryResult)
    (rest : List QueryResult) (top_k : Nat) (uf : UsedFilters)
    (retrieve_ms gen_ms : ℚ)
    (hscores : ∀ r ∈ r0 :: rest, 0 ≤ r.score ∧ r.score ≤ 1)
    (hr : 0 ≤ retrieve_ms) (hg : 0 ≤ gen_ms) :
    ∃ qa, ragAnswer (r0 :: rest) top_k uf retrieve_ms gen_ms = .ok qa
      ∧ qa.answer = r0.content :=
  ⟨_, ragAnswer_ok r0 rest top_k uf retrieve_ms gen_ms hscores hr hg, rfl⟩

/-- Witness for C4: one concrete candidate; the answer text is its chunk
text verbatim. -/
theorem answer_text_is_top_candidate_chunk_witness :
    ((∀ r ∈ [(⟨"c", 1, "Grounded answer text.", "T", none, 1/2⟩ : QueryResult)],
        0 ≤ r.score ∧ r.score ≤ 1) ∧ (0 : ℚ) ≤ 0 ∧ (0 : ℚ) ≤ 0)
    ∧ ∃ qa, ragAnswer [⟨"c", 1, "Grounded answer text.", "T", none, 1/2⟩] 5 {} 0 0
        = .ok qa ∧ qa.answer = "Grounded answer text." := by
  have hs : ∀ r ∈ [(⟨"c", 1, "Grounded answer text.", "T", none, 1/2⟩ : QueryResult)],
      0 ≤ r.score ∧ r.score ≤ 1 := by
    intro r hro
    rcases List.mem_singleton.1 hro with rfl
    constructor <;> norm_num
  exact ⟨⟨hs, le_rfl, le_rfl⟩,
    answer_text_is_top_candidate_chunk ⟨"c", 1, "Grounded answer text.", "T", none, 1/2⟩
      [] 5 {} 0 0 hs le_rfl le_rfl⟩

/-- C5: on a non-empty ranked candidate list the policy selects the first
`clamp(top_k, 6, 10) = min (max 6 top_k) 10` candidates (the clamp is
always between 6 and 10), emits one citation per selected candidate, and
sets confidence to the arithmetic mean of the selected scores. -/
theorem answer_selection_clamp_and_confidence (r0 : QueryResult)
    (rest : List QueryResult) (top_k : Nat) (uf : UsedFilters)
    (retrieve_ms gen_ms : ℚ)
    (hscores : ∀ r ∈ r0 :: rest, 0 ≤ r.score ∧ r.score ≤ 1)
    (hr : 0 ≤ retrieve_ms) (hg : 0 ≤ gen_ms) :
    ∃ qa, ragAnswer (r0 :: rest) top_k uf retrieve_ms gen_ms = .ok qa
      ∧ qa.citations = ((r0 :: rest).take (min (max 6 top_k) 10)).map
          (fun result => ⟨result.document_id, result.chunk_id, result.title,
            result.url, none, result.score⟩)
      ∧ qa.citations.length = min (min (max 6 top_k) 10) (r0 :: rest).length
      ∧ 6 ≤ min (max 6 top_k) 10 ∧ min (max 6 top_k) 10 ≤ 10
      ∧ qa.confidence = (((r0 :: rest).take (min (max 6 top_k) 10)).map (·.score)).sum
          / ((((r0 :: rest).take (min (max 6 top_k) 10)).length : ℚ)) :=
  ⟨_, ragAnswer_ok r0 rest top_k uf retrieve_ms gen_ms hscores hr hg,
   rfl,
   by simp [List.length_map, List.length_take],
   by omega, by omega,
   rfl⟩

/-- Witness for C5, matching the spec scenario: `top_k = 5` against 12
available candidates selects exactly 6 (the clamp lower bound), and
confidence is the mean of the 6 selected scores. -/
theorem answer_selection_clamp_and_confidence_witness :
    ((∀ r ∈ (⟨"c", 1, "t", "T", none, 1/2⟩ : QueryResult)
          :: List.replicate 11 (⟨"c", 1, "t", "T", none, 1/2⟩ : QueryResult),
        0 ≤ r.score ∧ r.score ≤ 1) ∧ (0 : ℚ) ≤ 0 ∧ (0 : ℚ) ≤ 0)
    ∧ ∃ qa, ragAnswer ((⟨"c", 1, "t", "T", none, 1/2⟩ : QueryResult)
          :: List.replicate 11 (⟨"c", 1, "t", "T", none, 1/2⟩ : QueryResult)) 5 {} 0 0
        = .ok qa
      ∧ qa.citations.length = 6
      ∧ qa.confidence = ((((⟨"c", 1, "t", "T", none, 1/2⟩ : QueryResult)
            :: List.replicate 11 (⟨"c", 1, "t", "T", none, 1/2⟩ : QueryResult)).take 6).map
              (·.score)).sum / 6 := by
  have hs : ∀ r ∈ (⟨"c", 1, "t", "T", none, 1/2⟩ : QueryResult)
      :: List.replicate 11 (⟨"c", 1, "t", "T", none, 1/2⟩ : QueryResult),
      0 ≤ r.score ∧ r.score ≤ 1 := by
    intro r hro
    rcases List.mem_cons.1 hro with rfl | hro'
    · constructor <;> norm_num
    · rw [List.eq_of_mem_replicate hro']
      constructor <;> norm_num
  obtain ⟨qa, hqa, hcit, hlen, hlo, hhi, hconf⟩ :=
    answer_selection_clamp_and_confidence _ _ 5 {} 0 0 hs le_rfl le_rfl
  refine ⟨⟨hs, le_rfl, le_rfl⟩, qa, hqa, ?_, ?_⟩
  · rw [hlen]
    simp
  · rw [hconf]
    have h6 : min (max 6 5) 10 = 6 := by norm_num
    rw [h6]
    norm_num [List.length_take]

end Raggy
